import Mathlib

/-!
Verification of the module-set generation pipeline of static-files
(src/mods/sets.rs): the SplitByCount strategy, the generate_resources_sets
orchestration loop, the per-module file lifecycle, the aggregator emission,
and the propagation of I/O failures.

The emission collaborators living in resource.rs (generate_uses,
generate_function_header, generate_function_end, generate_resource_insert,
generate_variable_header, generate_variable_return, collect_resources) are
not part of this source; where their behaviour matters it is modelled from
the spec and marked as such in the corresponding doc comment.
-/

namespace StaticFiles

/-- File metadata as carried by resource discovery. std::fs::Metadata is
opaque to sets.rs; the spec says strategies may inspect size and mtime, so
those two fields stand for it. -/
structure Metadata where
  len : Nat
  modified : Nat
deriving DecidableEq

/-- A discovered resource: a (path, metadata) pair, as produced by the
discovery collaborator collect_resources and iterated by the loop at
line 130 of sets.rs. -/
abbrev Resource := String × Metadata

/-- struct SplitByCount (sets.rs lines 26-29): split modules by files count. -/
structure SplitByCount where
  current : Nat
  max : Nat
deriving DecidableEq

/-- SplitByCount::new (sets.rs lines 33-35). -/
def SplitByCount.new (max : Nat) : SplitByCount :=
  { current := 0, max := max }

/-- SplitByCount::register (sets.rs lines 39-41): both arguments are ignored,
current is incremented. -/
def SplitByCount.register (s : SplitByCount) (_path : String) (_metadata : Metadata) :
    SplitByCount :=
  { s with current := s.current + 1 }

/-- SplitByCount::should_split (sets.rs lines 43-45). -/
def SplitByCount.should_split (s : SplitByCount) : Bool :=
  decide (s.current ≥ s.max)

/-- SplitByCount::reset (sets.rs lines 47-49). -/
def SplitByCount.reset (s : SplitByCount) : SplitByCount :=
  { s with current := 0 }

/-- The trait SetSplitStrategie (sets.rs lines 16-23), embedded as a record
of its three operations over a strategy state type. -/
structure SetSplitStrategie (σ : Type) where
  register : σ → String → Metadata → σ
  should_split : σ → Bool
  reset : σ → σ

/-- The impl of SetSplitStrategie for SplitByCount (sets.rs lines 38-50). -/
def SplitByCount.strategie : SetSplitStrategie SplitByCount :=
  { register := SplitByCount.register
    should_split := SplitByCount.should_split
    reset := SplitByCount.reset }

/-- The mutable state threaded through the loop of generate_resources_sets
(sets.rs lines 125-142): the strategy state, the pending should_split flag,
the modules_count counter, the insert lists of the set files already closed
(in creation order), and the insert list of the currently open set file. -/
structure LoopState (σ : Type) where
  strategy : σ
  should_split : Bool
  modules_count : Nat
  closedModules : List (List Resource)
  currentModule : List Resource

/-- One iteration of the for-loop over resources (sets.rs lines 130-142):
if the pending flag is set, reset the strategy, bump modules_count, close the
current set file and open a fresh one; then register the resource, recompute
the flag, and emit the resource insert into the open set file. -/
def loopStep {σ : Type} (S : SetSplitStrategie σ) (st : LoopState σ) (resource : Resource) :
    LoopState σ :=
  let st1 :=
    if st.should_split then
      { strategy := S.reset st.strategy
        should_split := st.should_split
        modules_count := st.modules_count + 1
        closedModules := st.closedModules ++ [st.currentModule]
        currentModule := ([] : List Resource) }
    else st
  let s2 := S.register st1.strategy resource.1 resource.2
  { strategy := s2
    should_split := S.should_split s2
    modules_count := st1.modules_count
    closedModules := st1.closedModules
    currentModule := st1.currentModule ++ [resource] }

/-- The state just before the loop (sets.rs lines 125-128): modules_count is
1, set_1 is open and empty, and the pending flag is the strategy's answer in
its fresh state. -/
def initState {σ : Type} (S : SetSplitStrategie σ) (s0 : σ) : LoopState σ :=
  { strategy := s0
    should_split := S.should_split s0
    modules_count := 1
    closedModules := []
    currentModule := [] }

/-- Running the whole loop of generate_resources_sets over the discovered
resources in discovery order (sets.rs lines 130-142). -/
def runLoop {σ : Type} (S : SetSplitStrategie σ) (s0 : σ) (resources : List Resource) :
    LoopState σ :=
  resources.foldl (loopStep S) (initState S s0)

/-- The insert lists of all set files after the final generate_function_end
(sets.rs line 144) has closed the last open file: the closed files followed
by the current one. -/
def finalModules {σ : Type} (st : LoopState σ) : List (List Resource) :=
  st.closedModules ++ [st.currentModule]

/-- The observable artifacts of generate_resources_sets (sets.rs lines
92-173): the final modules_count, the per-set-file insert lists (set_1 ..
set_modules_count in order), the sub-module indices declared in the
aggregator (lines 146-148) and the indices whose generate is called by the
exported function (lines 154-159), both emitted by a for-loop over
1..=modules_count. -/
structure GeneratedOutput where
  modules_count : Nat
  set_modules : List (List Resource)
  mod_declarations : List Nat
  generate_calls : List Nat
deriving DecidableEq

/-- The pure content of a run of generate_resources_sets (sets.rs lines
92-173) on an already-discovered resource list. -/
def generate_resources_sets {σ : Type} (S : SetSplitStrategie σ) (s0 : σ)
    (resources : List Resource) : GeneratedOutput :=
  let st := runLoop S s0 resources
  { modules_count := st.modules_count
    set_modules := finalModules st
    mod_declarations := List.range' 1 st.modules_count
    generate_calls := List.range' 1 st.modules_count }

/-- Modelled from the spec: the insert of the generated set_k::generate
bodies goes into a HashMap keyed by the resource path
(generate_resource_insert is in resource.rs, which is not part of this
source); inserting overwrites any earlier binding of the same key. -/
def mapInsert (m : List (String × Resource)) (key : String) (v : Resource) :
    List (String × Resource) :=
  m.filter (fun kv => kv.1 != key) ++ [(key, v)]

/-- Modelled from the spec: the body of a generated set_k::generate function
inserts its assigned resources, in order, into the caller-supplied map. -/
def moduleGenerate (resources : List Resource) (m : List (String × Resource)) :
    List (String × Resource) :=
  resources.foldl (fun acc r => mapInsert acc r.1 r) m

/-- Modelled from the spec: the exported function of the generated aggregator
declares one map, runs each set module's generate on it in ascending module
order (sets.rs lines 150-163), and returns it. -/
def exported_fn (out : GeneratedOutput) : List (String × Resource) :=
  out.set_modules.foldl (fun m resources => moduleGenerate resources m) []

/-- Events observable in the execution of the generation loop: opening a set
module file (create_set_module_file), closing one (generate_function_end),
registering a resource with the strategy, and emitting a resource insert
statement. -/
inductive Ev where
  | openMod (idx : Nat)
  | closeMod
  | register (r : Resource)
  | insert (r : Resource)
deriving DecidableEq

/-- The events of one iteration of the loop body (sets.rs lines 130-142), in
program order: the split block (close then open) if the pending flag is set,
then the registration, then the insert emission. -/
def stepTrace {σ : Type} (st : LoopState σ) (r : Resource) :
    List Ev :=
  (if st.should_split then [Ev.closeMod, Ev.openMod (st.modules_count + 1)] else [])
    ++ [Ev.register r, Ev.insert r]

/-- The events of the whole loop (sets.rs lines 130-142). -/
def loopTrace {σ : Type} (S : SetSplitStrategie σ) (st : LoopState σ) :
    List Resource → List Ev
  | [] => []
  | r :: rs => stepTrace st r ++ loopTrace S (loopStep S st r) rs

/-- The full event trace of generate_resources_sets: set_1 is opened before
the loop (sets.rs line 127), the loop runs, and the last open file is closed
after it (line 144). -/
def fullTrace {σ : Type} (S : SetSplitStrategie σ) (s0 : σ) (resources : List Resource) :
    List Ev :=
  Ev.openMod 1 :: (loopTrace S (initState S s0) resources ++ [Ev.closeMod])

/-- The open/close events of a trace, in order. -/
def ocEvents (t : List Ev) : List Ev :=
  t.filter (fun e =>
    match e with
    | Ev.openMod _ => true
    | Ev.closeMod => true
    | _ => false)

/-- The register/insert events of a trace, in order. -/
def riEvents (t : List Ev) : List Ev :=
  t.filter (fun e =>
    match e with
    | Ev.register _ => true
    | Ev.insert _ => true
    | _ => false)

/-- The resources whose insert statements appear in a trace, in emission
order. -/
def insertedResources (t : List Ev) : List Resource :=
  t.filterMap (fun e =>
    match e with
    | Ev.insert r => some r
    | _ => none)

/-- Reference partition used to characterise the SplitByCount run: with
remaining capacity k in the module currently holding cur, consume the input;
a resource arriving at capacity 0 closes the module and starts a new one
(capacity max) with that resource as its first element. -/
def chunkFrom (max k : Nat) (cur : List Resource) : List Resource → List (List Resource)
  | [] => [cur]
  | r :: rs =>
    if k = 0 then
      cur :: chunkFrom max (max - 1) [r] rs
    else
      chunkFrom max (k - 1) (cur ++ [r]) rs

/-- A fallible I/O operation performed by generate_resources_sets. -/
inductive Op where
  | createDir (path : String)
  | createFile (path : String)
  | writeLine (file : String) (line : String)
deriving DecidableEq

/-- Name of the k-th set module file (sets.rs line 176). -/
def setFileName (i : Nat) : String :=
  "set_" ++ toString i ++ ".rs"

/-- create_set_module_file (sets.rs lines 175-188): one File::create and one
writeln of the fixed prologue. The prologue text comes from the source; its
exact characters are irrelevant here and abbreviated. -/
def createSetOps (i : Nat) : List Op :=
  [Op.createFile (setFileName i), Op.writeLine (setFileName i) "set module prologue"]

/-- The fallible I/O operations of the for-loop body (sets.rs lines 130-142),
in program order: on a pending split, the function_end write into the old set
file and the creation of the next one; then the insert write into the now
current set file. register and should_split are pure and perform no I/O. -/
def loopOps {σ : Type} (S : SetSplitStrategie σ) (st : LoopState σ) :
    List Resource → List Op
  | [] => []
  | r :: rs =>
    (if st.should_split then
      Op.writeLine (setFileName st.modules_count) "function end"
        :: createSetOps (st.modules_count + 1)
    else [])
    ++ [Op.writeLine (setFileName (loopStep S st r).modules_count) ("insert " ++ r.1)]
    ++ loopOps S (loopStep S st r) rs

/-- The complete ordered list of fallible I/O operations performed by
generate_resources_sets after discovery (sets.rs lines 107-171). The line
text written by the resource.rs emission collaborators is modelled from the
spec as fixed tags; the operation sequence itself follows the source. -/
def ioProgram {σ : Type} (S : SetSplitStrategie σ) (s0 : σ) (resources : List Resource)
    (generated_filename module_dir module_name fn_name : String) : List Op :=
  [Op.createFile generated_filename,
   Op.createDir module_dir,
   Op.createFile "mod.rs",
   Op.writeLine "mod.rs" "generate uses",
   Op.writeLine "mod.rs" "use std collections HashMap and static_files Resource"]
  ++ createSetOps 1
  ++ loopOps S (initState S s0) resources
  ++ [Op.writeLine (setFileName (runLoop S s0 resources).modules_count) "function end"]
  ++ ((List.range' 1 (runLoop S s0 resources).modules_count).map
        (fun i => Op.writeLine "mod.rs" ("mod set_" ++ toString i ++ ";")))
  ++ [Op.writeLine "mod.rs" ("function header " ++ fn_name),
      Op.writeLine "mod.rs" "variable header"]
  ++ ((List.range' 1 (runLoop S s0 resources).modules_count).map
        (fun i => Op.writeLine "mod.rs" ("set_" ++ toString i ++ "::generate")))
  ++ [Op.writeLine "mod.rs" "variable return",
      Op.writeLine "mod.rs" "function end",
      Op.writeLine generated_filename
        ("mod " ++ module_name ++ "; pub use " ++ module_name ++ "::" ++ fn_name ++ ";")]

/-- Executor of an operation list against an environment in which the
operation with index failAt (if any) fails: done holds the operations already
performed, i the index of the next one. On a failure the run stops at once
with the failing index as the error; every effect already performed stays. -/
def runOpsAux (failAt : Option Nat) (i : Nat) (done : List Op) :
    List Op → List Op × Option Nat
  | [] => (done, none)
  | op :: ops =>
    if failAt = some i then (done, some i)
    else runOpsAux failAt (i + 1) (done ++ [op]) ops

/-- Run an operation list from a clean state. Returns the operations that
actually executed (the on-disk effects) and the index of the failed
operation, if any. -/
def runOps (failAt : Option Nat) (ops : List Op) : List Op × Option Nat :=
  runOpsAux failAt 0 [] ops

/-- Concrete resource used in witnesses. -/
def demoRes (i : Nat) : Resource :=
  ("file_" ++ toString i, { len := i, modified := i + 100 })

/-- Concrete resource list of length n used in witnesses. -/
def demoList (n : Nat) : List Resource :=
  (List.range n).map (fun i => demoRes (i + 1))

/-- modules_count never decreases across loop iterations. -/
theorem modules_count_le {σ : Type} (S : SetSplitStrategie σ) :
    ∀ (rs : List Resource) (st : LoopState σ),
    st.modules_count ≤ (List.foldl (loopStep S) st rs).modules_count := by
  intro rs
  induction rs with
  | nil => intro st; simp
  | cons r rs ih =>
    intro st
    rw [List.foldl_cons]
    refine le_trans ?_ (ih (loopStep S st r))
    cases hsplit : st.should_split <;> simp [loopStep, hsplit]

/-- Loop invariant: modules_count is always one more than the number of set
files already closed (each split both closes a file and bumps the counter). -/
theorem modules_count_eq_closed {σ : Type} (S : SetSplitStrategie σ) :
    ∀ (rs : List Resource) (st : LoopState σ),
    st.modules_count = st.closedModules.length + 1 →
    (List.foldl (loopStep S) st rs).modules_count
      = (List.foldl (loopStep S) st rs).closedModules.length + 1 := by
  intro rs
  induction rs with
  | nil => intro st h; simpa using h
  | cons r rs ih =>
    intro st h
    rw [List.foldl_cons]
    apply ih
    cases hsplit : st.should_split <;> simp [loopStep, hsplit, h]

/-- Across the loop, the concatenation of all set files' insert lists grows
by exactly the resources processed, in order. -/
theorem join_finalModules {σ : Type} (S : SetSplitStrategie σ) :
    ∀ (rs : List Resource) (st : LoopState σ),
    (finalModules (List.foldl (loopStep S) st rs)).flatten
      = (finalModules st).flatten ++ rs := by
  intro rs
  induction rs with
  | nil => intro st; simp
  | cons r rs ih =>
    intro st
    rw [List.foldl_cons, ih]
    have hstep : (finalModules (loopStep S st r)).flatten = (finalModules st).flatten ++ [r] := by
      cases hsplit : st.should_split <;>
        simp [loopStep, finalModules, hsplit, List.flatten_append]
    rw [hstep]
    simp

/-- Characterisation of the loop under SplitByCount: from a state whose
strategy holds current = c (and whose pending flag is the strategy's answer
there), the set files produced are the chunk partition with remaining
capacity mx - c in the open module. -/
theorem foldl_splitByCount_chunk (mx : Nat) :
    ∀ (rs : List Resource) (c mc : Nat) (closed : List (List Resource)) (cur : List Resource),
    finalModules (List.foldl (loopStep SplitByCount.strategie)
      { strategy := { current := c, max := mx }
        should_split := decide (c ≥ mx)
        modules_count := mc
        closedModules := closed
        currentModule := cur } rs)
    = closed ++ chunkFrom mx (mx - c) cur rs := by
  intro rs
  induction rs with
  | nil =>
    intro c mc closed cur
    simp [finalModules, chunkFrom]
  | cons r rs ih =>
    intro c mc closed cur
    rw [List.foldl_cons]
    by_cases h : c ≥ mx
    · have hs : decide (c ≥ mx) = true := decide_eq_true h
      have hk : mx - c = 0 := by omega
      have hstep : loopStep SplitByCount.strategie
          { strategy := { current := c, max := mx }, should_split := decide (c ≥ mx),
            modules_count := mc, closedModules := closed, currentModule := cur } r
        = { strategy := { current := 1, max := mx }, should_split := decide (1 ≥ mx),
            modules_count := mc + 1, closedModules := closed ++ [cur],
            currentModule := [r] } := by
        simp [loopStep, hs, SplitByCount.strategie, SplitByCount.register,
          SplitByCount.reset, SplitByCount.should_split]
      rw [hstep, ih 1 (mc + 1) (closed ++ [cur]) [r], hk, chunkFrom]
      simp
    · have hs : decide (c ≥ mx) = false := decide_eq_false h
      have hk : ¬ (mx - c = 0) := by omega
      have hstep : loopStep SplitByCount.strategie
          { strategy := { current := c, max := mx }, should_split := decide (c ≥ mx),
            modules_count := mc, closedModules := closed, currentModule := cur } r
        = { strategy := { current := c + 1, max := mx }, should_split := decide (c + 1 ≥ mx),
            modules_count := mc, closedModules := closed,
            currentModule := cur ++ [r] } := by
        simp [loopStep, hs, SplitByCount.strategie, SplitByCount.register,
          SplitByCount.reset, SplitByCount.should_split]
      rw [hstep, ih (c + 1) mc closed (cur ++ [r]), chunkFrom]
      have he : mx - c - 1 = mx - (c + 1) := by omega
      simp [hk, he]

/-- The set files produced by generate_resources_sets with SplitByCount are
exactly the chunk partition of the resource list with capacity mx. -/
theorem set_modules_eq_chunk (mx : Nat) (rs : List Resource) :
    (generate_resources_sets SplitByCount.strategie (SplitByCount.new mx) rs).set_modules
      = chunkFrom mx mx [] rs := by
  have h := foldl_splitByCount_chunk mx rs 0 1 [] []
  simp only [Nat.sub_zero, List.nil_append] at h
  rw [← h]
  rfl

/-- Length of the chunk partition: with positive capacity, the number of
modules is 1 plus the number of overflow chunks. -/
theorem chunkFrom_length (mx : Nat) (hmx : 0 < mx) :
    ∀ (rs : List Resource) (k : Nat) (cur : List Resource),
    (chunkFrom mx k cur rs).length = 1 + (rs.length - k + mx - 1) / mx := by
  intro rs
  induction rs with
  | nil =>
    intro k cur
    have hd : (mx - 1) / mx = 0 := Nat.div_eq_of_lt (by omega)
    simp [chunkFrom, hd]
  | cons r rs ih =>
    intro k cur
    rcases Nat.eq_zero_or_pos k with hk | hk
    · subst hk
      have lhs1 : chunkFrom mx 0 cur (r :: rs) = cur :: chunkFrom mx (mx - 1) [r] rs := by
        simp [chunkFrom]
      rw [lhs1, List.length_cons, ih (mx - 1) [r]]
      have key : (rs.length - (mx - 1) + mx - 1) / mx = rs.length / mx := by
        rcases le_or_lt (mx - 1) rs.length with h | h
        · have e : rs.length - (mx - 1) + mx - 1 = rs.length := by omega
          rw [e]
        · have e : rs.length - (mx - 1) + mx - 1 = mx - 1 := by omega
          rw [e, Nat.div_eq_of_lt (by omega), Nat.div_eq_of_lt (by omega)]
      rw [key]
      have e2 : (r :: rs).length - 0 + mx - 1 = rs.length + mx := by
        rw [List.length_cons]
        omega
      rw [e2, Nat.add_div_right _ hmx]
      omega
    · have hk0 : ¬ (k = 0) := by omega
      have lhs1 : chunkFrom mx k cur (r :: rs) = chunkFrom mx (k - 1) (cur ++ [r]) rs := by
        simp [chunkFrom, hk0]
      rw [lhs1, ih (k - 1) (cur ++ [r])]
      have e : rs.length - (k - 1) = (r :: rs).length - k := by
        rw [List.length_cons]
        omega
      rw [e]

/-- The chunk-partition shapes of two equally long resource lists coincide. -/
theorem chunkFrom_map_length (mx : Nat) :
    ∀ (rs1 rs2 : List Resource) (k : Nat) (cur1 cur2 : List Resource),
    rs1.length = rs2.length → cur1.length = cur2.length →
    (chunkFrom mx k cur1 rs1).map List.length
      = (chunkFrom mx k cur2 rs2).map List.length := by
  intro rs1
  induction rs1 with
  | nil =>
    intro rs2 k cur1 cur2 h1 h2
    cases rs2 with
    | nil => simp [chunkFrom, h2]
    | cons r2 rs2 => simp at h1
  | cons r rs ih =>
    intro rs2 k cur1 cur2 h1 h2
    cases rs2 with
    | nil => simp at h1
    | cons r2 rs2 =>
      have h1' : rs.length = rs2.length := by simpa using h1
      by_cases hk : k = 0
      · subst hk
        have l1 : chunkFrom mx 0 cur1 (r :: rs) = cur1 :: chunkFrom mx (mx - 1) [r] rs := by
          simp [chunkFrom]
        have l2 : chunkFrom mx 0 cur2 (r2 :: rs2) = cur2 :: chunkFrom mx (mx - 1) [r2] rs2 := by
          simp [chunkFrom]
        rw [l1, l2, List.map_cons, List.map_cons, h2, ih rs2 (mx - 1) [r] [r2] h1' rfl]
      · have l1 : chunkFrom mx k cur1 (r :: rs) = chunkFrom mx (k - 1) (cur1 ++ [r]) rs := by
          simp [chunkFrom, hk]
        have l2 : chunkFrom mx k cur2 (r2 :: rs2) = chunkFrom mx (k - 1) (cur2 ++ [r2]) rs2 := by
          simp [chunkFrom, hk]
        rw [l1, l2]
        exact ih rs2 (k - 1) (cur1 ++ [r]) (cur2 ++ [r2]) h1' (by simp [h2])

/-- With capacity zero the chunk partition is an empty first module followed
by a singleton module per resource. -/
theorem chunkFrom_zero :
    ∀ (rs : List Resource) (cur : List Resource),
    chunkFrom 0 0 cur rs = cur :: rs.map (fun r => [r]) := by
  intro rs
  induction rs with
  | nil => intro cur; simp [chunkFrom]
  | cons r rs ih => intro cur; simp [chunkFrom, ih]

/-- In the loop trace, the register/insert events are exactly one
registration followed by one insert per resource, in discovery order. -/
theorem riEvents_loopTrace {σ : Type} (S : SetSplitStrategie σ) :
    ∀ (rs : List Resource) (st : LoopState σ),
    riEvents (loopTrace S st rs)
      = (rs.map (fun r => [Ev.register r, Ev.insert r])).flatten := by
  intro rs
  induction rs with
  | nil => intro st; simp [loopTrace, riEvents]
  | cons r rs ih =>
    intro st
    have h := ih (loopStep S st r)
    cases hsplit : st.should_split <;>
      simp [loopTrace, stepTrace, riEvents, hsplit, List.filter_append] <;>
      simpa [riEvents] using h

/-- In the whole trace, register/insert events alternate per resource. -/
theorem riEvents_fullTrace {σ : Type} (S : SetSplitStrategie σ) (s0 : σ)
    (rs : List Resource) :
    riEvents (fullTrace S s0 rs)
      = (rs.map (fun r => [Ev.register r, Ev.insert r])).flatten := by
  have h1 : riEvents (fullTrace S s0 rs)
      = riEvents (loopTrace S (initState S s0) rs) := by
    simp [fullTrace, riEvents, List.filter_append]
  rw [h1, riEvents_loopTrace]

/-- The inserts of the loop trace are the processed resources, in order. -/
theorem insertedResources_loopTrace {σ : Type} (S : SetSplitStrategie σ) :
    ∀ (rs : List Resource) (st : LoopState σ),
    insertedResources (loopTrace S st rs) = rs := by
  intro rs
  induction rs with
  | nil => intro st; simp [loopTrace, insertedResources]
  | cons r rs ih =>
    intro st
    have h := ih (loopStep S st r)
    cases hsplit : st.should_split <;>
      simp [loopTrace, stepTrace, insertedResources, hsplit, List.filterMap_append] <;>
      simpa [insertedResources] using h

/-- The inserts of the full trace are the discovered resources, in order. -/
theorem insertedResources_fullTrace {σ : Type} (S : SetSplitStrategie σ) (s0 : σ)
    (rs : List Resource) :
    insertedResources (fullTrace S s0 rs) = rs := by
  have h1 : insertedResources (fullTrace S s0 rs)
      = insertedResources (loopTrace S (initState S s0) rs) := by
    simp [fullTrace, insertedResources, List.filterMap_append]
  rw [h1, insertedResources_loopTrace]

/-- The open/close events of the loop trace: one close immediately followed
by one open per split, with ascending fresh indices continuing from the
incoming modules_count. -/
theorem ocEvents_loopTrace {σ : Type} (S : SetSplitStrategie σ) :
    ∀ (rs : List Resource) (st : LoopState σ),
    ocEvents (loopTrace S st rs)
      = ((List.range' st.modules_count
            ((List.foldl (loopStep S) st rs).modules_count - st.modules_count)).map
          (fun j => [Ev.closeMod, Ev.openMod (j + 1)])).flatten := by
  intro rs
  induction rs with
  | nil => intro st; simp [loopTrace, ocEvents]
  | cons r rs ih =>
    intro st
    have h := ih (loopStep S st r)
    rw [List.foldl_cons]
    cases hsplit : st.should_split
    · have hmc : (loopStep S st r).modules_count = st.modules_count := by
        simp [loopStep, hsplit]
      have hoc : ocEvents (loopTrace S st (r :: rs))
          = ocEvents (loopTrace S (loopStep S st r) rs) := by
        simp [loopTrace, stepTrace, ocEvents, hsplit, List.filter_append]
      rw [hoc, h, hmc]
    · have hmc : (loopStep S st r).modules_count = st.modules_count + 1 := by
        simp [loopStep, hsplit]
      have hle : st.modules_count + 1
          ≤ (List.foldl (loopStep S) (loopStep S st r) rs).modules_count := by
        have := modules_count_le S rs (loopStep S st r)
        omega
      have hoc : ocEvents (loopTrace S st (r :: rs))
          = Ev.closeMod :: Ev.openMod (st.modules_count + 1)
              :: ocEvents (loopTrace S (loopStep S st r) rs) := by
        simp [loopTrace, stepTrace, ocEvents, hsplit, List.filter_append]
      rw [hoc, h, hmc]
      have hd : (List.foldl (loopStep S) (loopStep S st r) rs).modules_count
            - st.modules_count
          = ((List.foldl (loopStep S) (loopStep S st r) rs).modules_count
              - (st.modules_count + 1)) + 1 := by
        omega
      rw [hd, List.range'_succ]
      simp

/-- Shifting an open event across a close/open block list turns it into
open/close blocks. -/
theorem openClose_blocks :
    ∀ (d a : Nat),
    Ev.openMod a
        :: (((List.range' a d).map (fun j => [Ev.closeMod, Ev.openMod (j + 1)])).flatten
            ++ [Ev.closeMod])
      = ((List.range' a (d + 1)).map (fun k => [Ev.openMod k, Ev.closeMod])).flatten := by
  intro d
  induction d with
  | zero => intro a; simp
  | succ d ih =>
    intro a
    rw [List.range'_succ a (d + 1), List.range'_succ a d]
    simp only [List.map_cons, List.flatten_cons, List.cons_append, List.append_assoc]
    have := ih (a + 1)
    simp only [List.cons_append, List.nil_append] at this ⊢
    rw [← this]

/-- Any open event with index at least 2 in the loop trace sits in a
contiguous block: close the old file, open the new one, register the
triggering resource, insert the triggering resource. -/
theorem openMod_infix_loopTrace {σ : Type} (S : SetSplitStrategie σ) :
    ∀ (rs : List Resource) (st : LoopState σ) (k : Nat),
    Ev.openMod k ∈ loopTrace S st rs →
    ∃ r, List.IsInfix [Ev.closeMod, Ev.openMod k, Ev.register r, Ev.insert r]
      (loopTrace S st rs) := by
  intro rs
  induction rs with
  | nil => intro st k h; simp [loopTrace] at h
  | cons r rs ih =>
    intro st k h
    rw [loopTrace] at h ⊢
    rcases List.mem_append.mp h with hstep | htail
    · cases hsplit : st.should_split
      · rw [stepTrace, hsplit] at hstep
        simp at hstep
      · refine ⟨r, ?_⟩
        have hk : k = st.modules_count + 1 := by
          rw [stepTrace, hsplit] at hstep
          simp at hstep
          exact hstep
        have hpre : stepTrace st r
            = [Ev.closeMod, Ev.openMod (st.modules_count + 1),
               Ev.register r, Ev.insert r] := by
          rw [stepTrace, hsplit]
          rfl
        apply List.IsPrefix.isInfix
        rw [hk, ← hpre]
        exact List.prefix_append _ _
    · rcases ih (loopStep S st r) k htail with ⟨r2, hinf⟩
      exact ⟨r2, hinf.trans (List.suffix_append _ _).isInfix⟩

/-- Running the operation list with no failing operation executes every
operation in order and reports success. -/
theorem runOpsAux_none :
    ∀ (ops : List Op) (i : Nat) (done : List Op),
    runOpsAux none i done ops = (done ++ ops, none) := by
  intro ops
  induction ops with
  | nil => intro i done; simp [runOpsAux]
  | cons op ops ih =>
    intro i done
    rw [runOpsAux, if_neg (by simp), ih]
    simp

/-- Running the operation list when operation index k fails: if k is within
the list, exactly the first k operations execute and the error is the index
of the failing operation; otherwise the run completes. -/
theorem runOpsAux_some :
    ∀ (ops : List Op) (k i : Nat) (done : List Op), i ≤ k →
    runOpsAux (some k) i done ops
      = if k - i < ops.length then (done ++ ops.take (k - i), some k)
        else (done ++ ops, none) := by
  intro ops
  induction ops with
  | nil =>
    intro k i done hik
    simp [runOpsAux]
  | cons op ops ih =>
    intro k i done hik
    by_cases hk : k = i
    · subst hk
      rw [runOpsAux, if_pos rfl, if_pos (by rw [List.length_cons]; omega)]
      simp [Nat.sub_self]
    · have hik1 : i + 1 ≤ k := by omega
      rw [runOpsAux, if_neg (by simp; omega), ih k (i + 1) (done ++ [op]) hik1]
      by_cases hlt : k - (i + 1) < ops.length
      · rw [if_pos hlt, if_pos (by rw [List.length_cons]; omega)]
        have e : k - i = (k - (i + 1)) + 1 := by omega
        rw [e, List.take_succ_cons]
        simp
      · rw [if_neg hlt, if_neg (by rw [List.length_cons]; omega)]
        simp

/-- modules_count equals the number of set files produced. -/
theorem modules_count_eq_length {σ : Type} (S : SetSplitStrategie σ) (s0 : σ)
    (rs : List Resource) :
    (generate_resources_sets S s0 rs).modules_count
      = (generate_resources_sets S s0 rs).set_modules.length := by
  have h := modules_count_eq_closed S rs (initState S s0) (by simp [initState])
  simp only [generate_resources_sets, finalModules, runLoop, List.length_append,
    List.length_cons, List.length_nil] at h ⊢
  omega

/-- Arithmetic form of the module count: 1 plus the overflow chunks equals
the ceiling division clamped below by 1. -/
theorem chunk_count_arith (mx n : Nat) (hmx : 0 < mx) :
    1 + (n - mx + mx - 1) / mx = max 1 ((n + mx - 1) / mx) := by
  rcases Nat.eq_zero_or_pos n with hn | hn
  · subst hn
    have h1 : (0 - mx + mx - 1) / mx = 0 := Nat.div_eq_of_lt (by omega)
    have h2 : (0 + mx - 1) / mx = 0 := Nat.div_eq_of_lt (by omega)
    rw [h1, h2, max_eq_left (Nat.zero_le 1)]
  · have h2 : (n + mx - 1) / mx = (n - 1) / mx + 1 := by
      have e : n + mx - 1 = (n - 1) + mx := by omega
      rw [e, Nat.add_div_right _ hmx]
    rcases le_or_lt mx n with h | h
    · have e : n - mx + mx - 1 = n - 1 := by omega
      rw [e, h2, max_eq_right (Nat.succ_le_succ (Nat.zero_le ((n - 1) / mx)))]
      omega
    · have e : n - mx + mx - 1 = mx - 1 := by omega
      rw [e, h2, Nat.div_eq_of_lt (show mx - 1 < mx by omega),
        Nat.div_eq_of_lt (show n - 1 < mx by omega),
        max_eq_right (Nat.succ_le_succ (Nat.zero_le 0))]

/-- Registering k resources from a fresh SplitByCount leaves current = k and
max untouched. -/
theorem iterate_register (p : String) (md : Metadata) :
    ∀ (k mx : Nat),
    ((fun t => SplitByCount.register t p md)^[k] (SplitByCount.new mx)).current = k
      ∧ ((fun t => SplitByCount.register t p md)^[k] (SplitByCount.new mx)).max = mx := by
  intro k
  induction k with
  | zero => intro mx; exact ⟨rfl, rfl⟩
  | succ k ih =>
    intro mx
    have h1 := (ih mx).1
    have h2 := (ih mx).2
    rw [Function.iterate_succ_apply']
    refine ⟨?_, ?_⟩
    · show ((fun t => SplitByCount.register t p md)^[k]
          (SplitByCount.new mx)).current + 1 = k + 1
      rw [h1]
    · show ((fun t => SplitByCount.register t p md)^[k]
          (SplitByCount.new mx)).max = mx
      exact h2

/-- Claim C1: with the count-based strategy and threshold mx > 0,
generate_resources_sets produces modules_count = max(1, ceil(n / mx)) for n
discovered resources; concretely, 4 resources with threshold 2 give 2
modules holding resources 1-2 and 3-4 in discovery order, and 5 resources
with threshold 2 give 3 modules with distribution 2/2/1. -/
theorem c1_count_strategy_module_count :
    ((generate_resources_sets SplitByCount.strategie (SplitByCount.new 2)
        (demoList 4)).modules_count = 2
      ∧ (generate_resources_sets SplitByCount.strategie (SplitByCount.new 2)
          (demoList 4)).set_modules
        = [[demoRes 1, demoRes 2], [demoRes 3, demoRes 4]]
      ∧ (generate_resources_sets SplitByCount.strategie (SplitByCount.new 2)
          (demoList 5)).modules_count = 3
      ∧ ((generate_resources_sets SplitByCount.strategie (SplitByCount.new 2)
          (demoList 5)).set_modules).map List.length = [2, 2, 1])
    ∧ ∀ (mx : Nat) (rs : List Resource), 0 < mx →
        (generate_resources_sets SplitByCount.strategie (SplitByCount.new mx)
            rs).modules_count
          = max 1 ((rs.length + mx - 1) / mx) := by
  constructor
  · exact ⟨by decide, by decide, by decide, by decide⟩
  · intro mx rs hmx
    rw [modules_count_eq_length, set_modules_eq_chunk,
      chunkFrom_length mx hmx rs mx []]
    have e : rs.length - mx + mx - 1 = rs.length - mx + mx - 1 := rfl
    exact chunk_count_arith mx rs.length hmx

/-- Witness for C1: the general formula applied at threshold 2 and five
concrete resources. -/
theorem c1_witness :
    (generate_resources_sets SplitByCount.strategie (SplitByCount.new 2)
        (demoList 5)).modules_count
      = max 1 (((demoList 5).length + 2 - 1) / 2) :=
  c1_count_strategy_module_count.2 2 (demoList 5) (by decide)

/-- Counterexample to C2 as stated: with threshold 0 and a single discovered
resource the code produces 2 modules, not 1 (the pre-loop should_split is
already true, so the first resource immediately closes the still-empty
set_1). -/
theorem c2_counterexample :
    ¬ ((generate_resources_sets SplitByCount.strategie (SplitByCount.new 0)
        [demoRes 1]).modules_count = 1) := by
  decide

/-- Claim C2 (amended): with threshold max = 0 the fresh strategy already
says split, so every discovered resource starts a new module and the first
module stays empty: modules_count = n + 1 for n discovered resources (which
is 1 when n = 0), the set files being the empty set_1 followed by one
singleton module per resource. -/
theorem c2_zero_threshold (rs : List Resource) :
    (generate_resources_sets SplitByCount.strategie (SplitByCount.new 0)
        rs).modules_count
      = rs.length + 1
    ∧ (generate_resources_sets SplitByCount.strategie (SplitByCount.new 0)
        rs).set_modules
      = [] :: rs.map (fun r => [r])
    ∧ (SplitByCount.new 0).should_split = true := by
  refine ⟨?_, ?_, rfl⟩
  · rw [modules_count_eq_length, set_modules_eq_chunk, chunkFrom_zero]
    simp
  · rw [set_modules_eq_chunk]
    exact chunkFrom_zero rs []

/-- Claim C4: each discovered resource yields exactly one insert statement,
none is lost or duplicated, and the inserts across the module files in
module order are the discovery sequence itself; likewise the insert events
of the full trace. -/
theorem c4_inserts_exact {σ : Type} (S : SetSplitStrategie σ) (s0 : σ)
    (rs : List Resource) :
    ((generate_resources_sets S s0 rs).set_modules).flatten = rs
      ∧ (((generate_resources_sets S s0 rs).set_modules).map List.length).sum
        = rs.length
      ∧ insertedResources (fullTrace S s0 rs) = rs := by
  have hflat : ((generate_resources_sets S s0 rs).set_modules).flatten = rs := by
    have h := join_finalModules S rs (initState S s0)
    simp only [finalModules, initState, List.append_nil, List.flatten_cons,
      List.flatten_nil, List.nil_append] at h
    simpa [generate_resources_sets, runLoop, finalModules] using h
  refine ⟨hflat, ?_, insertedResources_fullTrace S s0 rs⟩
  rw [← List.length_flatten, hflat]

/-- Claim C7: an empty discovery still yields one module file with no
inserts, an aggregator declaring and calling only set_1, and an empty
exported map. -/
theorem c7_empty_resources {σ : Type} (S : SetSplitStrategie σ) (s0 : σ) :
    (generate_resources_sets S s0 []).modules_count = 1
      ∧ (generate_resources_sets S s0 []).set_modules = [[]]
      ∧ (generate_resources_sets S s0 []).mod_declarations = [1]
      ∧ (generate_resources_sets S s0 []).generate_calls = [1]
      ∧ exported_fn (generate_resources_sets S s0 []) = [] := by
  exact ⟨rfl, rfl, rfl, rfl, rfl⟩

/-- Claim C8: SplitByCount starts at current = 0, register increments
current by one and keeps max, should_split answers current >= max,
reset zeroes current and keeps max; should_split is a pure function of the
state, so after k registrations from fresh it answers k >= max. -/
theorem c8_split_by_count_algebra (mx k : Nat) (s : SplitByCount) (p : String)
    (md : Metadata) :
    (SplitByCount.new mx).current = 0
      ∧ (SplitByCount.new mx).max = mx
      ∧ (s.register p md).current = s.current + 1
      ∧ (s.register p md).max = s.max
      ∧ (s.should_split = true ↔ s.current ≥ s.max)
      ∧ s.reset.current = 0
      ∧ s.reset.max = s.max
      ∧ (s.register p md).reset = SplitByCount.new s.max
      ∧ ((fun t => SplitByCount.register t p md)^[k] (SplitByCount.new mx)).should_split
          = decide (k ≥ mx) := by
  refine ⟨rfl, rfl, rfl, rfl, by simp [SplitByCount.should_split], rfl, rfl, rfl, ?_⟩
  rw [SplitByCount.should_split, (iterate_register p md k mx).1,
    (iterate_register p md k mx).2]

/-- Witness for C8: the should_split characterisation applied at the fresh
zero-threshold strategy. -/
theorem c8_witness :
    (SplitByCount.new 0).should_split = true :=
  (c8_split_by_count_algebra 0 0 (SplitByCount.new 0) "p"
    { len := 0, modified := 0 }).2.2.2.2.1.mpr (by decide)

/-- Claim C10: the partition produced with SplitByCount depends only on the
number of discovered resources: equally long resource lists yield identical
per-module insert counts and identical modules_count, and register ignores
both of its arguments. -/
theorem c10_partition_depends_only_on_count (mx : Nat) (rs1 rs2 : List Resource)
    (h : rs1.length = rs2.length) :
    ((generate_resources_sets SplitByCount.strategie (SplitByCount.new mx)
          rs1).set_modules).map List.length
        = ((generate_resources_sets SplitByCount.strategie (SplitByCount.new mx)
          rs2).set_modules).map List.length
      ∧ (generate_resources_sets SplitByCount.strategie (SplitByCount.new mx)
          rs1).modules_count
        = (generate_resources_sets SplitByCount.strategie (SplitByCount.new mx)
          rs2).modules_count
      ∧ ∀ (s : SplitByCount) (p1 p2 : String) (m1 m2 : Metadata),
          s.register p1 m1 = s.register p2 m2 := by
  have hmap : ((generate_resources_sets SplitByCount.strategie (SplitByCount.new mx)
        rs1).set_modules).map List.length
      = ((generate_resources_sets SplitByCount.strategie (SplitByCount.new mx)
        rs2).set_modules).map List.length := by
    rw [set_modules_eq_chunk, set_modules_eq_chunk]
    exact chunkFrom_map_length mx rs1 rs2 mx [] [] h rfl
  refine ⟨hmap, ?_, fun s p1 p2 m1 m2 => rfl⟩
  rw [modules_count_eq_length, modules_count_eq_length]
  have hlen := congrArg List.length hmap
  simpa using hlen

/-- Witness for C10: two different equally long resource lists produce the
same module shape. -/
theorem c10_witness :
    ((generate_resources_sets SplitByCount.strategie (SplitByCount.new 2)
        (demoList 3)).set_modules).map List.length
      = ((generate_resources_sets SplitByCount.strategie (SplitByCount.new 2)
        [("alpha", { len := 7, modified := 9 }),
         ("beta", { len := 8, modified := 3 }),
         ("gamma", { len := 9, modified := 4 })]).set_modules).map List.length :=
  (c10_partition_depends_only_on_count 2 (demoList 3)
    [("alpha", { len := 7, modified := 9 }),
     ("beta", { len := 8, modified := 3 }),
     ("gamma", { len := 9, modified := 4 })] (by decide)).1

/-- Claim C3: in the loop, every resource is registered after any split
triggered by the previous iteration's flag and before its own insert
statement (register/insert events alternate per resource in discovery
order), and whenever a split opens module k >= 2, the trace contains the
contiguous block: close old file, open module k, register the triggering
resource, insert that same resource as the first one of the new module. -/
theorem c3_register_between_split_and_insert {σ : Type} (S : SetSplitStrategie σ)
    (s0 : σ) (rs : List Resource) :
    riEvents (fullTrace S s0 rs)
        = (rs.map (fun r => [Ev.register r, Ev.insert r])).flatten
      ∧ ∀ k, 2 ≤ k → Ev.openMod k ∈ fullTrace S s0 rs →
          ∃ r, List.IsInfix [Ev.closeMod, Ev.openMod k, Ev.register r, Ev.insert r]
            (fullTrace S s0 rs) := by
  refine ⟨riEvents_fullTrace S s0 rs, ?_⟩
  intro k hk hmem
  have hmem2 : Ev.openMod k ∈ loopTrace S (initState S s0) rs := by
    rw [fullTrace] at hmem
    rcases List.mem_cons.mp hmem with h1 | h2
    · injection h1 with hk1
      omega
    · rcases List.mem_append.mp h2 with h3 | h4
      · exact h3
      · simp at h4
  rcases openMod_infix_loopTrace S rs (initState S s0) k hmem2 with ⟨r, hinf⟩
  refine ⟨r, hinf.trans ?_⟩
  exact ⟨[Ev.openMod 1], [Ev.closeMod], by simp [fullTrace]⟩

/-- Witness for C3: in a run with threshold 1 over two resources, module 2
is opened inside a close/open/register/insert block. -/
theorem c3_witness :
    ∃ r, List.IsInfix [Ev.closeMod, Ev.openMod 2, Ev.register r, Ev.insert r]
      (fullTrace SplitByCount.strategie (SplitByCount.new 1) (demoList 2)) :=
  (c3_register_between_split_and_insert SplitByCount.strategie (SplitByCount.new 1)
    (demoList 2)).2 2 (by decide) (by decide)

/-- Claim C5: the open/close events of a full run are exactly one open
followed by one close for each module index 1 .. modules_count in order:
every set file, including an empty one, receives its prologue exactly once
and its closing footer exactly once. -/
theorem c5_every_module_opened_closed_once {σ : Type} (S : SetSplitStrategie σ)
    (s0 : σ) (rs : List Resource) :
    ocEvents (fullTrace S s0 rs)
      = ((List.range' 1 (generate_resources_sets S s0 rs).modules_count).map
          (fun k => [Ev.openMod k, Ev.closeMod])).flatten := by
  have hM : 1 ≤ (List.foldl (loopStep S) (initState S s0) rs).modules_count := by
    have h := modules_count_le S rs (initState S s0)
    simpa [initState] using h
  have h1 : ocEvents (fullTrace S s0 rs)
      = Ev.openMod 1 :: (ocEvents (loopTrace S (initState S s0) rs) ++ [Ev.closeMod]) := by
    simp [fullTrace, ocEvents, List.filter_append]
  rw [h1, ocEvents_loopTrace S rs (initState S s0)]
  have hinit : (initState S s0).modules_count = 1 := rfl
  rw [hinit]
  have hd : (List.foldl (loopStep S) (initState S s0) rs).modules_count - 1 + 1
      = (List.foldl (loopStep S) (initState S s0) rs).modules_count := by omega
  have hb := openClose_blocks
    ((List.foldl (loopStep S) (initState S s0) rs).modules_count - 1) 1
  rw [hd] at hb
  have hgen : (generate_resources_sets S s0 rs).modules_count
      = (List.foldl (loopStep S) (initState S s0) rs).modules_count := rfl
  rw [hgen, ← hb]

/-- Claim C6: the aggregator declares exactly the sub-modules set_1 ..
set_modules_count and calls them in strictly ascending order starting at 1,
each exactly once, with contiguous indices and no gaps; modules_count is at
least 1 even for an empty resource list. -/
theorem c6_aggregator_structure {σ : Type} (S : SetSplitStrategie σ) (s0 : σ)
    (rs : List Resource) :
    (generate_resources_sets S s0 rs).mod_declarations
        = (generate_resources_sets S s0 rs).generate_calls
      ∧ (generate_resources_sets S s0 rs).generate_calls.length
        = (generate_resources_sets S s0 rs).modules_count
      ∧ ((generate_resources_sets S s0 rs).generate_calls).Pairwise (· < ·)
      ∧ (∀ i, i ∈ (generate_resources_sets S s0 rs).generate_calls ↔
            1 ≤ i ∧ i ≤ (generate_resources_sets S s0 rs).modules_count)
      ∧ (generate_resources_sets S s0 rs).generate_calls.head? = some 1
      ∧ 1 ≤ (generate_resources_sets S s0 rs).modules_count := by
  have hM : 1 ≤ (List.foldl (loopStep S) (initState S s0) rs).modules_count := by
    have h := modules_count_le S rs (initState S s0)
    simpa [initState] using h
  have hgen : (generate_resources_sets S s0 rs).generate_calls
      = List.range' 1 (List.foldl (loopStep S) (initState S s0) rs).modules_count := rfl
  have hmc : (generate_resources_sets S s0 rs).modules_count
      = (List.foldl (loopStep S) (initState S s0) rs).modules_count := rfl
  refine ⟨rfl, ?_, ?_, ?_, ?_, ?_⟩
  · rw [hgen, hmc, List.length_range']
  · rw [hgen]
    exact List.pairwise_lt_range' 1 _
  · intro i
    rw [hgen, hmc, List.mem_range'_1]
    omega
  · rw [hgen]
    have hd : (List.foldl (loopStep S) (initState S s0) rs).modules_count
        = ((List.foldl (loopStep S) (initState S s0) rs).modules_count - 1) + 1 := by
      omega
    rw [hd, List.range'_succ]
    rfl
  · rw [hmc]
    exact hM

/-- Witness for C6: in a concrete run, module index 2 is among the called
sub-modules because it lies between 1 and modules_count. -/
theorem c6_witness :
    2 ∈ (generate_resources_sets SplitByCount.strategie (SplitByCount.new 2)
      (demoList 4)).generate_calls :=
  ((c6_aggregator_structure SplitByCount.strategie (SplitByCount.new 2)
      (demoList 4)).2.2.2.1 2).mpr (by decide)

/-- Claim C9: if the I/O operation with index k of a run fails, the run
stops at that very operation: the result is that error, exactly the k
operations before it have executed (their effects remain, nothing is rolled
back), nothing after the failure is attempted and nothing is retried; with
no failing operation every operation executes in order. The effects of a
failed run are a prefix of the effects of the successful run. -/
theorem c9_io_failure_propagation {σ : Type} (S : SetSplitStrategie σ) (s0 : σ)
    (rs : List Resource)
    (generated_filename module_dir module_name fn_name : String) (k : Nat)
    (hk : k < (ioProgram S s0 rs generated_filename module_dir module_name
        fn_name).length) :
    runOps (some k)
        (ioProgram S s0 rs generated_filename module_dir module_name fn_name)
      = ((ioProgram S s0 rs generated_filename module_dir module_name
            fn_name).take k, some k)
    ∧ runOps none (ioProgram S s0 rs generated_filename module_dir module_name fn_name)
      = (ioProgram S s0 rs generated_filename module_dir module_name fn_name, none)
    ∧ List.IsPrefix
        (runOps (some k)
          (ioProgram S s0 rs generated_filename module_dir module_name fn_name)).1
        (runOps none
          (ioProgram S s0 rs generated_filename module_dir module_name fn_name)).1 := by
  have hsome : runOps (some k)
      (ioProgram S s0 rs generated_filename module_dir module_name fn_name)
      = ((ioProgram S s0 rs generated_filename module_dir module_name
          fn_name).take k, some k) := by
    rw [runOps, runOpsAux_some _ k 0 [] (Nat.zero_le k),
      if_pos (by simpa using hk)]
    simp
  have hnone : runOps none
      (ioProgram S s0 rs generated_filename module_dir module_name fn_name)
      = (ioProgram S s0 rs generated_filename module_dir module_name fn_name,
         none) := by
    rw [runOps, runOpsAux_none]
    simp
  refine ⟨hsome, hnone, ?_⟩
  rw [hsome, hnone]
  exact List.take_prefix k _

/-- Witness for C9: with a concrete strategy, three resources, and the fifth
operation failing, the run stops there with the first four effects kept. -/
theorem c9_witness :
    runOps (some 4) (ioProgram SplitByCount.strategie (SplitByCount.new 2)
        (demoList 3) "generated_sets.rs" "sets_dir" "sets" "generate")
      = ((ioProgram SplitByCount.strategie (SplitByCount.new 2) (demoList 3)
          "generated_sets.rs" "sets_dir" "sets" "generate").take 4, some 4)
    ∧ runOps none (ioProgram SplitByCount.strategie (SplitByCount.new 2)
        (demoList 3) "generated_sets.rs" "sets_dir" "sets" "generate")
      = (ioProgram SplitByCount.strategie (SplitByCount.new 2) (demoList 3)
          "generated_sets.rs" "sets_dir" "sets" "generate", none)
    ∧ List.IsPrefix
        (runOps (some 4) (ioProgram SplitByCount.strategie (SplitByCount.new 2)
          (demoList 3) "generated_sets.rs" "sets_dir" "sets" "generate")).1
        (runOps none (ioProgram SplitByCount.strategie (SplitByCount.new 2)
          (demoList 3) "generated_sets.rs" "sets_dir" "sets" "generate")).1 :=
  c9_io_failure_propagation SplitByCount.strategie (SplitByCount.new 2) (demoList 3)
    "generated_sets.rs" "sets_dir" "sets" "generate" 4 (by decide)

end StaticFiles
